import Mathlib

/-!
Verification of the interval-notification scheduler (`src/util/timer.cc`).

The registry is modelled as a `List Element` (the C++ `std::list<TimerSubscriberElement>
subscribers`), timestamps as `Int` milliseconds, and the opaque subscriber pointer and
parameter as `Nat` handles.  Each operation of `Timer` is embedded as a pure function on
the registry; the wake signal sent through the thread runner is returned as a `Bool`.
-/

namespace Timer

/-- Registration record, the C++ `TimerSubscriberElement` (declared in `timer.h`, which is
not part of the provided sources).  Modelled from the spec: a record is
`{ subscriberHandle, intervalMillis, parameter, once, nextNotifyAt }` where
`subscriberHandle` is a non-owning reference (here an opaque `Nat` handle) and
`parameter` is opaque shared data (also a `Nat` handle). -/
structure Element where
  subscriberHandle : Nat
  notifyInterval : Nat
  parameter : Nat
  once : Bool
  nextNotify : Int
deriving DecidableEq, Repr

/-- `getDeltaMillis(first, second)` from the clock utilities (not in the provided
sources).  Modelled from the spec: deadlines are absolute millisecond timestamps, and
the delta is the signed distance `second - first` (so `getDeltaMillis(&now, deadline)`
is the remaining wait and `getDeltaMillis(&now, deadline) <= 0` means the deadline has
passed). -/
def getDeltaMillis (first second : Int) : Int := second - first

/-- The `(subscriberHandle, parameter)` identity of a record. -/
def idOf (e : Element) : Nat × Nat := (e.subscriberHandle, e.parameter)

/-- `TimerSubscriberElement::operator==` (declared in `timer.h`, not in the provided
sources).  Modelled from the spec: identity/equality for lookup and duplicate detection
is the pair `(subscriberHandle, parameter)`, regardless of interval/once. -/
def sameIdentity (a b : Element) : Bool :=
  a.subscriberHandle == b.subscriberHandle && a.parameter == b.parameter

/-- Whether a record matches the identity `(sub, param)`. -/
def matchesIdentity (sub param : Nat) (e : Element) : Bool :=
  e.subscriberHandle == sub && e.parameter == param

/-- The `TimerSubscriberElement` constructor (declared in `timer.h`, not in the provided
sources).  Modelled from the spec: `nextNotifyAt` is set to `now + intervalMillis` at
creation. -/
def mkElement (sub : Nat) (notifyInterval : Nat) (param : Nat) (once : Bool)
    (now : Int) : Element :=
  { subscriberHandle := sub, notifyInterval := notifyInterval, parameter := param,
    once := once, nextNotify := now + (notifyInterval : Int) }

/-- `TimerSubscriberElement::updateNextNotify` (declared in `timer.h`, not in the
provided sources).  Modelled from the spec: after every non-once firing,
`nextNotifyAt = now + intervalMillis`. -/
def updateNextNotify (now : Int) (e : Element) : Element :=
  { e with nextNotify := now + (e.notifyInterval : Int) }

/-- Errors raised by `Timer::addTimerSubscriber` (`throw_std_runtime_error`). -/
inductive AddError
  | IllegalInterval
  | DuplicateSubscription
deriving DecidableEq, Repr

/-- Error raised by `Timer::removeTimerSubscriber`. -/
inductive RemoveError
  | SubscriptionNotFound
deriving DecidableEq, Repr

/-- `Timer::addTimerSubscriber` (timer.cc:65-83).  Returns the raised error (if any),
the registry after the call, and whether `threadRunner->notify()` was issued.  A C++
`throw` leaves the registry untouched, hence the error branches return `subs`
unchanged. -/
def addTimerSubscriber (subs : List Element) (sub : Nat) (notifyInterval : Nat)
    (param : Nat) (once : Bool) (now : Int) :
    Option AddError × List Element × Bool :=
  if notifyInterval = 0 then
    (some .IllegalInterval, subs, false)
  else
    let element := mkElement sub notifyInterval param once now
    if subs.any (fun subscriber => sameIdentity subscriber element) then
      (some .DuplicateSubscription, subs, false)
    else
      (none, subs ++ [element], true)

/-- `std::find` followed by `subscribers.erase(it)` in `Timer::removeTimerSubscriber`:
erase the first record matching the identity, returning `none` when no record
matches. -/
def eraseFirstIdentity (sub param : Nat) : List Element → Option (List Element)
  | [] => none
  | x :: xs =>
    if matchesIdentity sub param x then some xs
    else (eraseFirstIdentity sub param xs).map (fun ys => x :: ys)

/-- `Timer::removeTimerSubscriber` (timer.cc:85-102).  Returns the raised error (if
any), the registry after the call, and whether `threadRunner->notify()` was issued. -/
def removeTimerSubscriber (subs : List Element) (sub param : Nat) (dontFail : Bool) :
    Option RemoveError × List Element × Bool :=
  match eraseFirstIdentity sub param subs with
  | some subs' => (none, subs', true)
  | none =>
    if dontFail then (none, subs, false)
    else (some .SubscriptionNotFound, subs, false)

/-- The dueness test of `Timer::notify`: `getDeltaMillis(&now, element.getNextNotify()) <= 0`. -/
def dueAt (now : Int) (e : Element) : Bool :=
  decide (getDeltaMillis now e.nextNotify ≤ 0)

/-- The locked selection/mutation phase of `Timer::notify` (timer.cc:136-163): scan the
registry once; each due record is appended to `toNotify` (by copy, before any rearm);
a due `once` record is erased, a due recurring record is rearmed in place; records not
due are kept as they are.  Returns `(registry after the pass, toNotify)`. -/
def notify (now : Int) : List Element → List Element × List Element
  | [] => ([], [])
  | e :: rest =>
    let r := notify now rest
    if dueAt now e then
      if e.once then (r.1, e :: r.2)
      else (updateNextNotify now e :: r.1, e :: r.2)
    else (e :: r.1, r.2)

/-- The dispatch phase of `Timer::notify` (timer.cc:165-169), after the lock is
released: for each element of `toNotify`, in order, `element.notify()` invokes
`subscriber->onTimer(parameter)`.  The result is the trace of `onTimer` invocations,
each given by the `(subscriberHandle, parameter)` pair it is delivered to. -/
def onTimerCalls (toNotify : List Element) : List (Nat × Nat) :=
  toNotify.map idOf

/-- The body of the loop in `Timer::getNextNotifyTime`: replace the running deadline
when it is still `nullptr` (`none`) or when the next record's deadline is strictly
earlier (`getDeltaMillis(nextTime, nextNotify) < 0`). -/
def nextTimeStep (nextTime : Option Int) (subscriber : Element) : Option Int :=
  match nextTime with
  | none => some subscriber.nextNotify
  | some t =>
    if getDeltaMillis t subscriber.nextNotify < 0 then some subscriber.nextNotify
    else some t

/-- `Timer::getNextNotifyTime` (timer.cc:172-185): fold `nextTimeStep` over the
registry; `none` plays the role of the initial `nullptr`. -/
def getNextNotifyTime (subs : List Element) : Option Int :=
  subs.foldl nextTimeStep none

/-- Result of `threadRunner->waitFor`: either the timeout elapsed
(`std::cv_status::timeout`) or the wait was ended by an explicit wake. -/
inductive WaitResult
  | timeout
  | wake
deriving DecidableEq, Repr

/-- What one iteration of the `Timer::triggerWait` loop does. -/
inductive IterAction
  | sleptIdle
  | restarted
  | notified
deriving DecidableEq, Repr

/-- One iteration of the loop body of `Timer::triggerWait` (timer.cc:108-133), given
the registry, the current time and — when a timed wait happens — how that wait
returned.  `sleptIdle` is the indefinite wait on an empty registry, `restarted` is the
`continue` after a non-timeout return of `waitFor`, and `notified` means `notify()`
runs.  The `none` branch of the match is unreachable: a non-empty registry always has
a deadline (`getNextNotifyTime_eq_none_iff`). -/
def triggerWaitIter (subs : List Element) (now : Int) (w : WaitResult) : IterAction :=
  if subs.isEmpty then .sleptIdle
  else
    match getNextNotifyTime subs with
    | none => .notified
    | some deadline =>
      if getDeltaMillis now deadline > 0 then
        match w with
        | .timeout => .notified
        | .wake => .restarted
      else .notified

/-- A run of consecutive notify passes at the given instants, starting from `subs`:
returns the final registry and the concatenated trace of `onTimer` invocations. -/
def runPasses (times : List Int) (subs : List Element) : List Element × List (Nat × Nat) :=
  match times with
  | [] => (subs, [])
  | t :: ts =>
    let r := notify t subs
    let rest := runPasses ts r.1
    (rest.1, onTimerCalls r.2 ++ rest.2)

/-- The registry invariant of the spec: identities are pairwise distinct and every
live record has a strictly positive interval. -/
def registryInvariant (subs : List Element) : Prop :=
  (subs.map idOf).Nodup ∧ ∀ e ∈ subs, 0 < e.notifyInterval

/-! ## Sample records used by witness theorems -/

/-- A concrete recurring record due at time 7. -/
def elemA : Element :=
  { subscriberHandle := 1, notifyInterval := 10, parameter := 0, once := false,
    nextNotify := 7 }

/-- A concrete one-shot record due at time 3. -/
def elemB : Element :=
  { subscriberHandle := 2, notifyInterval := 5, parameter := 3, once := true,
    nextNotify := 3 }

/-! ## Characterisation of the notify pass -/

/-- The pending-dispatch list built by one notify pass is exactly the due records, in
registry order. -/
theorem notify_fired (now : Int) (subs : List Element) :
    (notify now subs).2 = subs.filter (dueAt now) := by
  induction subs with
  | nil => rfl
  | cons e rest ih =>
    cases hd : dueAt now e <;> cases ho : e.once <;>
      simp [notify, hd, ho, ih, List.filter_cons]

/-- The registry after one notify pass: due `once` records are dropped, due recurring
records are rearmed, not-due records are untouched. -/
theorem notify_keep (now : Int) (subs : List Element) :
    (notify now subs).1 =
      (subs.filter (fun e => !(dueAt now e && e.once))).map
        (fun e => if dueAt now e then updateNextNotify now e else e) := by
  induction subs with
  | nil => rfl
  | cons e rest ih =>
    cases hd : dueAt now e <;> cases ho : e.once <;>
      simp [notify, hd, ho, ih, List.filter_cons]

/-- Claim C1: one notify pass selects exactly the records with `nextNotifyAt <= now`
into the pending-dispatch list; each selected non-`once` record is rearmed to
`nextNotifyAt = now + intervalMillis` and stays in the registry, each selected `once`
record is dropped; records not due are left unchanged; and the post-unlock dispatch
phase invokes `subscriber.onTimer(parameter)` exactly once per selected record, in
collection order. -/
theorem notify_pass_correct (now : Int) (subs : List Element) :
    (notify now subs).2 = subs.filter (dueAt now) ∧
    (notify now subs).1 =
      (subs.filter (fun e => !(dueAt now e && e.once))).map
        (fun e => if dueAt now e then updateNextNotify now e else e) ∧
    onTimerCalls (notify now subs).2 = (subs.filter (dueAt now)).map idOf := by
  refine ⟨notify_fired now subs, notify_keep now subs, ?_⟩
  rw [onTimerCalls, notify_fired]

/-! ## Characterisation of the deadline selector -/

/-- Folding `nextTimeStep` from a non-`nullptr` accumulator yields the minimum of the
accumulator and all deadlines seen. -/
theorem foldl_nextTimeStep_some (subs : List Element) : ∀ t : Int,
    ∃ u, subs.foldl nextTimeStep (some t) = some u ∧
      (u = t ∨ ∃ e ∈ subs, e.nextNotify = u) ∧ u ≤ t ∧
      ∀ e ∈ subs, u ≤ e.nextNotify := by
  induction subs with
  | nil => exact fun t => ⟨t, rfl, Or.inl rfl, le_refl t, by simp⟩
  | cons e rest ih =>
    intro t
    simp only [List.foldl_cons]
    by_cases h : getDeltaMillis t e.nextNotify < 0
    · have hlt : e.nextNotify < t := by simpa [getDeltaMillis, sub_neg] using h
      have hstep : nextTimeStep (some t) e = some e.nextNotify := by
        simp [nextTimeStep, h]
      rw [hstep]
      obtain ⟨u, h1, h2, h3, h4⟩ := ih e.nextNotify
      refine ⟨u, h1, ?_, le_trans h3 (le_of_lt hlt), ?_⟩
      · rcases h2 with rfl | ⟨x, hx, hxe⟩
        · exact Or.inr ⟨e, List.mem_cons_self e rest, rfl⟩
        · exact Or.inr ⟨x, List.mem_cons_of_mem _ hx, hxe⟩
      · intro x hx
        rcases List.mem_cons.mp hx with rfl | hx
        · exact h3
        · exact h4 x hx
    · have hge : t ≤ e.nextNotify := by
        have := not_lt.mp h
        simpa [getDeltaMillis, sub_nonneg] using this
      have hstep : nextTimeStep (some t) e = some t := by
        simp [nextTimeStep, h]
      rw [hstep]
      obtain ⟨u, h1, h2, h3, h4⟩ := ih t
      refine ⟨u, h1, ?_, h3, ?_⟩
      · rcases h2 with h2 | ⟨x, hx, hxe⟩
        · exact Or.inl h2
        · exact Or.inr ⟨x, List.mem_cons_of_mem _ hx, hxe⟩
      · intro x hx
        rcases List.mem_cons.mp hx with rfl | hx
        · exact le_trans h3 hge
        · exact h4 x hx

/-- Claim C2: the deadline selector returns `none` exactly on the empty registry, and
whenever it returns a time `t`, `t` is the minimum `nextNotifyAt` across all records
(attained by some record, and a lower bound for all of them). -/
theorem getNextNotifyTime_min (subs : List Element) :
    (getNextNotifyTime subs = none ↔ subs = []) ∧
    ∀ t, getNextNotifyTime subs = some t →
      (∃ e ∈ subs, e.nextNotify = t) ∧ ∀ e ∈ subs, t ≤ e.nextNotify := by
  cases subs with
  | nil =>
    refine ⟨by simp [getNextNotifyTime], ?_⟩
    intro t h
    simp [getNextNotifyTime] at h
  | cons e rest =>
    have hfold : getNextNotifyTime (e :: rest) =
        rest.foldl nextTimeStep (some e.nextNotify) := by
      simp [getNextNotifyTime, List.foldl_cons, nextTimeStep]
    obtain ⟨u, h1, h2, h3, h4⟩ := foldl_nextTimeStep_some rest e.nextNotify
    constructor
    · constructor
      · intro h
        rw [hfold, h1] at h
        exact absurd h (by simp)
      · intro h
        exact absurd h (by simp)
    · intro t ht
      rw [hfold, h1] at ht
      obtain rfl : u = t := Option.some.inj ht
      constructor
      · rcases h2 with h2 | ⟨x, hx, hxe⟩
        · exact ⟨e, List.mem_cons_self e rest, h2.symm⟩
        · exact ⟨x, List.mem_cons_of_mem _ hx, hxe⟩
      · intro x hx
        rcases List.mem_cons.mp hx with rfl | hx
        · exact h3
        · exact h4 x hx

/-- Witness for C2: on the concrete registry `[elemA, elemB]` the selector returns 3,
which is attained and minimal. -/
theorem getNextNotifyTime_min_w :
    (∃ e ∈ [elemA, elemB], e.nextNotify = 3) ∧
      ∀ e ∈ [elemA, elemB], 3 ≤ e.nextNotify :=
  (getNextNotifyTime_min [elemA, elemB]).2 3 rfl

/-- Claim C3: `add` with `intervalMillis = 0` always fails with `IllegalInterval`,
whatever the subscriber, parameter, once flag and registry; the registry is returned
unchanged (no record is created) and the worker is not woken. -/
theorem addTimerSubscriber_zero_interval (subs : List Element) (sub param : Nat)
    (once : Bool) (now : Int) :
    addTimerSubscriber subs sub 0 param once now =
      (some AddError.IllegalInterval, subs, false) := by
  simp [addTimerSubscriber]

/-- Claim C4: when the registry already holds a record with identity
`(sub, param)`, a second `add` with that identity (interval nonzero, as on the first
call) fails with `DuplicateSubscription`; the registry is returned unchanged — no new
record is inserted and the original record keeps its interval, once flag and
`nextNotifyAt` — and the worker is not woken. -/
theorem addTimerSubscriber_duplicate (subs : List Element)
    (sub notifyInterval param : Nat) (once : Bool) (now : Int)
    (hint : notifyInterval ≠ 0)
    (hdup : ∃ e ∈ subs, matchesIdentity sub param e = true) :
    addTimerSubscriber subs sub notifyInterval param once now =
      (some AddError.DuplicateSubscription, subs, false) := by
  obtain ⟨e, he, hm⟩ := hdup
  have hany : subs.any
      (fun s => sameIdentity s (mkElement sub notifyInterval param once now)) = true := by
    refine List.any_eq_true.mpr ⟨e, he, ?_⟩
    simpa [sameIdentity, mkElement, matchesIdentity] using hm
  simp [addTimerSubscriber, hint, hany]

/-- Witness for C4: re-adding `elemA`'s identity to `[elemA]` fails with
`DuplicateSubscription` and leaves the registry alone. -/
theorem addTimerSubscriber_duplicate_w :
    addTimerSubscriber [elemA] 1 10 0 true 99 =
      (some AddError.DuplicateSubscription, [elemA], false) :=
  addTimerSubscriber_duplicate [elemA] 1 10 0 true 99 (by decide)
    ⟨elemA, by decide, by decide⟩

/-- When some record matches the identity, `eraseFirstIdentity` removes exactly the
first matching record and keeps everything else in order. -/
theorem eraseFirstIdentity_found (sub param : Nat) (subs : List Element)
    (h : ∃ e ∈ subs, matchesIdentity sub param e = true) :
    ∃ l1 e l2, subs = l1 ++ e :: l2 ∧ matchesIdentity sub param e = true ∧
      (∀ x ∈ l1, matchesIdentity sub param x = false) ∧
      eraseFirstIdentity sub param subs = some (l1 ++ l2) := by
  induction subs with
  | nil => simp at h
  | cons x xs ih =>
    by_cases hx : matchesIdentity sub param x = true
    · exact ⟨[], x, xs, rfl, hx, by simp, by simp [eraseFirstIdentity, hx]⟩
    · have hx' : matchesIdentity sub param x = false := Bool.eq_false_iff.mpr hx
      obtain ⟨e, he, hm⟩ := h
      rcases List.mem_cons.mp he with rfl | he
      · exact absurd hm hx
      · obtain ⟨l1, e', l2, heq, hm', hl1, herase⟩ := ih ⟨e, he, hm⟩
        refine ⟨x :: l1, e', l2, by simp [heq], hm', ?_, ?_⟩
        · intro y hy
          rcases List.mem_cons.mp hy with rfl | hy
          · exact hx'
          · exact hl1 y hy
        · simp [eraseFirstIdentity, hx', herase]

/-- When no record matches the identity, `eraseFirstIdentity` finds nothing. -/
theorem eraseFirstIdentity_missing (sub param : Nat) (subs : List Element)
    (h : ∀ e ∈ subs, matchesIdentity sub param e = false) :
    eraseFirstIdentity sub param subs = none := by
  induction subs with
  | nil => rfl
  | cons x xs ih =>
    have hx := h x (List.mem_cons_self x xs)
    simp [eraseFirstIdentity, hx, ih fun e he => h e (List.mem_cons_of_mem x he)]

/-- Claim C5: if a record with identity `(sub, param)` exists, `remove` deletes the
first such record, wakes the worker and succeeds (whatever `allowMissing`); if none
exists, `remove` with `allowMissing = false` fails with `SubscriptionNotFound` leaving
the registry unchanged, and with `allowMissing = true` succeeds as a no-op. -/
theorem removeTimerSubscriber_cases (subs : List Element) (sub param : Nat) :
    ((∃ e ∈ subs, matchesIdentity sub param e = true) →
      ∃ l1 e l2, subs = l1 ++ e :: l2 ∧ matchesIdentity sub param e = true ∧
        (∀ x ∈ l1, matchesIdentity sub param x = false) ∧
        ∀ dontFail, removeTimerSubscriber subs sub param dontFail =
          (none, l1 ++ l2, true)) ∧
    ((∀ e ∈ subs, matchesIdentity sub param e = false) →
      removeTimerSubscriber subs sub param false =
        (some RemoveError.SubscriptionNotFound, subs, false) ∧
      removeTimerSubscriber subs sub param true = (none, subs, false)) := by
  constructor
  · intro h
    obtain ⟨l1, e, l2, heq, hm, hl1, herase⟩ := eraseFirstIdentity_found sub param subs h
    exact ⟨l1, e, l2, heq, hm, hl1, fun dontFail => by
      simp [removeTimerSubscriber, herase]⟩
  · intro h
    have herase := eraseFirstIdentity_missing sub param subs h
    exact ⟨by simp [removeTimerSubscriber, herase], by simp [removeTimerSubscriber, herase]⟩

/-- Witness for C5: removing `elemA`'s identity from `[elemA]` succeeds and wakes the
worker; removing an absent identity fails with `SubscriptionNotFound` unless
`allowMissing` is set. -/
theorem removeTimerSubscriber_cases_w :
    (∃ l1 e l2, ([elemA] : List Element) = l1 ++ e :: l2 ∧
      matchesIdentity 1 0 e = true ∧
      (∀ x ∈ l1, matchesIdentity 1 0 x = false) ∧
      ∀ dontFail, removeTimerSubscriber [elemA] 1 0 dontFail =
        (none, l1 ++ l2, true)) ∧
    (removeTimerSubscriber [elemA] 5 0 false =
        (some RemoveError.SubscriptionNotFound, [elemA], false) ∧
      removeTimerSubscriber [elemA] 5 0 true = (none, [elemA], false)) :=
  ⟨(removeTimerSubscriber_cases [elemA] 1 0).1 ⟨elemA, by decide, by decide⟩,
    (removeTimerSubscriber_cases [elemA] 5 0).2 (by decide)⟩

/-- Claim C6: a successful `add` (nonzero interval, identity not yet present) appends
exactly one new record, whose deadline is `now + intervalMillis`, and wakes the
worker. -/
theorem addTimerSubscriber_success (subs : List Element)
    (sub notifyInterval param : Nat) (once : Bool) (now : Int)
    (hint : notifyInterval ≠ 0)
    (hfresh : ∀ e ∈ subs, matchesIdentity sub param e = false) :
    addTimerSubscriber subs sub notifyInterval param once now =
      (none, subs ++ [mkElement sub notifyInterval param once now], true) ∧
    (mkElement sub notifyInterval param once now).nextNotify =
      now + (notifyInterval : Int) := by
  have hany : subs.any
      (fun s => sameIdentity s (mkElement sub notifyInterval param once now)) = false := by
    rw [List.any_eq_false]
    intro e he
    have := hfresh e he
    simp only [sameIdentity, mkElement, matchesIdentity] at this ⊢
    simpa using this
  exact ⟨by simp [addTimerSubscriber, hint, hany], rfl⟩

/-- Witness for C6: adding a fresh identity to `[elemA]` inserts one record with
deadline `now + interval` and wakes the worker. -/
theorem addTimerSubscriber_success_w :
    addTimerSubscriber [elemA] 7 10 0 false 100 =
      (none, [elemA] ++ [mkElement 7 10 0 false 100], true) ∧
    (mkElement 7 10 0 false 100).nextNotify = 100 + (10 : Int) :=
  addTimerSubscriber_success [elemA] 7 10 0 false 100 (by decide) (by decide)

/-- Claim C7: when the registry is non-empty, the computed deadline is still in the
future (`remaining > 0`, so a timed wait happens) and that wait returns because of an
explicit wake rather than a timeout expiry, the loop iteration restarts from the top
(recomputing the deadline from the current registry) and never runs a notify pass. -/
theorem triggerWait_wake_no_dispatch (subs : List Element) (now deadline : Int)
    (hne : subs ≠ [])
    (hdl : getNextNotifyTime subs = some deadline)
    (hwait : getDeltaMillis now deadline > 0) :
    triggerWaitIter subs now WaitResult.wake = IterAction.restarted := by
  have hempty : subs.isEmpty = false := by
    cases subs with
    | nil => exact absurd rfl hne
    | cons x xs => rfl
  simp [triggerWaitIter, hempty, hdl, hwait]

/-- Witness for C7: with one record due at time 7 and `now = 0`, an explicit wake
makes the worker restart the loop instead of dispatching. -/
theorem triggerWait_wake_no_dispatch_w :
    triggerWaitIter [elemA] 0 WaitResult.wake = IterAction.restarted :=
  triggerWait_wake_no_dispatch [elemA] 0 7 (by decide) rfl (by decide)

/-- A record matches `(sub, param)` exactly when that pair is its identity. -/
theorem matchesIdentity_iff (sub param : Nat) (e : Element) :
    matchesIdentity sub param e = true ↔ idOf e = (sub, param) := by
  simp [matchesIdentity, idOf, Prod.ext_iff]

/-- The duplicate test of `add` compares exactly the identities. -/
theorem sameIdentity_mkElement (e : Element) (sub notifyInterval param : Nat)
    (once : Bool) (now : Int) :
    sameIdentity e (mkElement sub notifyInterval param once now) = true ↔
      idOf e = (sub, param) := by
  simp [sameIdentity, mkElement, idOf, Prod.ext_iff]

/-- Erasing the first matching record yields a sublist of the registry. -/
theorem eraseFirstIdentity_sublist (sub param : Nat) :
    ∀ subs subs', eraseFirstIdentity sub param subs = some subs' →
      List.Sublist subs' subs := by
  intro subs
  induction subs with
  | nil => intro subs' h; simp [eraseFirstIdentity] at h
  | cons x xs ih =>
    intro subs' h
    by_cases hx : matchesIdentity sub param x = true
    · simp only [eraseFirstIdentity, hx, if_true, Option.some.injEq] at h
      subst h
      exact List.sublist_cons_self x xs
    · have hx' : matchesIdentity sub param x = false := Bool.eq_false_iff.mpr hx
      simp only [eraseFirstIdentity, hx', Bool.false_eq_true, if_false,
        Option.map_eq_some'] at h
      obtain ⟨ys, hys, hcons⟩ := h
      subst hcons
      exact List.Sublist.cons₂ x (ih ys hys)

/-- The identity of a record is unchanged by the rearm-or-keep step of the notify
pass. -/
theorem idOf_notify_step (now : Int) (e : Element) :
    idOf (if dueAt now e = true then updateNextNotify now e else e) = idOf e := by
  by_cases h : dueAt now e = true <;> simp [h, updateNextNotify, idOf]

/-- The interval of a record is unchanged by the rearm-or-keep step of the notify
pass. -/
theorem interval_notify_step (now : Int) (e : Element) :
    (if dueAt now e = true then updateNextNotify now e else e).notifyInterval =
      e.notifyInterval := by
  by_cases h : dueAt now e = true <;> simp [h, updateNextNotify]

/-- The identities surviving a notify pass are exactly those of the records that are
not both due and `once`, in order. -/
theorem notify_keep_idOf (now : Int) (subs : List Element) :
    (notify now subs).1.map idOf =
      (subs.filter (fun e => !(dueAt now e && e.once))).map idOf := by
  rw [notify_keep, List.map_map]
  simp only [Function.comp_def, idOf_notify_step]

/-- The identities surviving a notify pass form a sublist of the original
identities. -/
theorem notify_idOf_sublist (now : Int) (subs : List Element) :
    List.Sublist ((notify now subs).1.map idOf) (subs.map idOf) := by
  rw [notify_keep_idOf]
  exact (List.filter_sublist subs).map idOf

/-- Claim C8: the registry invariant — pairwise-distinct `(subscriberHandle,
parameter)` identities and strictly positive intervals — is preserved by `add` (in
all three outcomes), by `remove` (in all outcomes) and by the notify pass. -/
theorem operations_preserve_invariant (subs : List Element)
    (hinv : registryInvariant subs) :
    (∀ sub notifyInterval param once now, registryInvariant
      (addTimerSubscriber subs sub notifyInterval param once now).2.1) ∧
    (∀ sub param dontFail, registryInvariant
      (removeTimerSubscriber subs sub param dontFail).2.1) ∧
    (∀ now, registryInvariant (notify now subs).1) := by
  obtain ⟨hnd, hpos⟩ := hinv
  refine ⟨?_, ?_, ?_⟩
  · intro sub notifyInterval param once now
    by_cases h0 : notifyInterval = 0
    · simpa [addTimerSubscriber, h0] using And.intro hnd hpos
    · cases hany : subs.any
        (fun s => sameIdentity s (mkElement sub notifyInterval param once now)) with
      | true => simpa [addTimerSubscriber, h0, hany] using And.intro hnd hpos
      | false =>
        have hgoal : registryInvariant
            (subs ++ [mkElement sub notifyInterval param once now]) := by
          constructor
          · rw [List.map_append]
            refine List.Nodup.append hnd (List.nodup_singleton _) ?_
            intro a ha hb
            simp only [List.map_cons, List.map_nil, List.mem_singleton] at hb
            obtain ⟨e, he, hae⟩ := List.mem_map.mp ha
            have hf := List.any_eq_false.mp hany e he
            rw [Bool.not_eq_true, Bool.eq_false_iff] at hf
            exact hf ((sameIdentity_mkElement e sub notifyInterval param once now).mpr
              (by rw [hae, hb]; rfl))
          · intro e he
            rcases List.mem_append.mp he with he | he
            · exact hpos e he
            · rw [List.mem_singleton.mp he]
              exact Nat.pos_of_ne_zero h0
        simpa [addTimerSubscriber, h0, hany] using hgoal
  · intro sub param dontFail
    cases herase : eraseFirstIdentity sub param subs with
    | none =>
      cases dontFail <;> simpa [removeTimerSubscriber, herase] using And.intro hnd hpos
    | some subs' =>
      have hsub := eraseFirstIdentity_sublist sub param subs subs' herase
      have hgoal : registryInvariant subs' :=
        ⟨List.Nodup.sublist (hsub.map idOf) hnd, fun e he => hpos e (hsub.subset he)⟩
      simpa [removeTimerSubscriber, herase] using hgoal
  · intro now
    constructor
    · exact List.Nodup.sublist (notify_idOf_sublist now subs) hnd
    · intro e he
      rw [notify_keep] at he
      obtain ⟨x, hx, hxe⟩ := List.mem_map.mp he
      have hx' : x ∈ subs := List.mem_of_mem_filter hx
      rw [← hxe, interval_notify_step]
      exact hpos x hx'

/-- Witness for C8: starting from the concrete registry `[elemA, elemB]` (which
satisfies the invariant), an `add`, a `remove` and a notify pass each yield a registry
satisfying the invariant. -/
theorem operations_preserve_invariant_w :
    registryInvariant (addTimerSubscriber [elemA, elemB] 7 4 9 false 0).2.1 ∧
    registryInvariant (removeTimerSubscriber [elemA, elemB] 1 0 false).2.1 ∧
    registryInvariant (notify 5 [elemA, elemB]).1 :=
  ⟨(operations_preserve_invariant [elemA, elemB] ⟨by decide, by decide⟩).1 7 4 9 false 0,
    (operations_preserve_invariant [elemA, elemB] ⟨by decide, by decide⟩).2.1 1 0 false,
    (operations_preserve_invariant [elemA, elemB] ⟨by decide, by decide⟩).2.2 5⟩

/-- A member of a duplicate-free list is counted exactly once. -/
theorem count_eq_one_of_nodup_mem {α : Type} [BEq α] [LawfulBEq α] {l : List α}
    {a : α} (h : l.Nodup) (hm : a ∈ l) : l.count a = 1 := by
  induction l with
  | nil => simp at hm
  | cons x xs ih =>
    rw [List.count_cons]
    rcases List.mem_cons.mp hm with rfl | hm'
    · have hnx : a ∉ xs := (List.nodup_cons.mp h).1
      simp [List.count_eq_zero.mpr hnx]
    · have hne : (x == a) = false := by
        rw [beq_eq_false_iff_ne]
        rintro rfl
        exact (List.nodup_cons.mp h).1 hm'
      rw [ih (List.nodup_cons.mp h).2 hm', hne]
      rfl

/-- An identity absent from the registry is never dispatched to by any subsequent run
of notify passes: dispatches only ever go to currently registered identities. -/
theorem runPasses_count_zero (i : Nat × Nat) :
    ∀ (ts : List Int) (subs : List Element), i ∉ subs.map idOf →
      (runPasses ts subs).2.count i = 0 := by
  intro ts
  induction ts with
  | nil => intro subs hi; simp [runPasses]
  | cons t ts ih =>
    intro subs hi
    simp only [runPasses, List.count_append]
    have h1 : (onTimerCalls (notify t subs).2).count i = 0 := by
      rw [List.count_eq_zero]
      intro hmem
      rw [onTimerCalls, notify_fired] at hmem
      obtain ⟨e, he, hei⟩ := List.mem_map.mp hmem
      exact hi (List.mem_map.mpr ⟨e, List.mem_of_mem_filter he, hei⟩)
    have h2 : i ∉ (notify t subs).1.map idOf := fun hmem =>
      hi ((notify_idOf_sublist t subs).subset hmem)
    rw [h1, ih _ h2]

/-- Under distinct identities, a due `once` record is dispatched exactly once by the
pass and its identity is gone from the surviving registry. -/
theorem notify_once_gone (now : Int) (subs : List Element) (e : Element)
    (hnd : (subs.map idOf).Nodup) (he : e ∈ subs)
    (hdue : dueAt now e = true) (honce : e.once = true) :
    (onTimerCalls (notify now subs).2).count (idOf e) = 1 ∧
      idOf e ∉ (notify now subs).1.map idOf := by
  constructor
  · rw [onTimerCalls, notify_fired]
    have hnd' : ((subs.filter (dueAt now)).map idOf).Nodup :=
      List.Nodup.sublist ((List.filter_sublist subs).map idOf) hnd
    have hmem : idOf e ∈ (subs.filter (dueAt now)).map idOf :=
      List.mem_map.mpr ⟨e, List.mem_filter.mpr ⟨he, hdue⟩, rfl⟩
    exact count_eq_one_of_nodup_mem hnd' hmem
  · rw [notify_keep_idOf]
    intro hmem
    obtain ⟨x, hx, hxe⟩ := List.mem_map.mp hmem
    have hxs : x ∈ subs := List.mem_of_mem_filter hx
    have hxp := List.of_mem_filter hx
    have hxeq : x = e := List.inj_on_of_nodup_map hnd hxs he hxe
    subst hxeq
    rw [hdue, honce] at hxp
    simp at hxp

/-- Claim C9: under distinct identities, a record registered with `once = true` that
is due at the first pass of a run is dispatched exactly once over the whole run —
whatever later passes follow — and its identity is removed from the registry by that
first pass; a due record with `once = false` instead stays in the registry, rearmed,
and is dispatched by the pass. -/
theorem once_fires_exactly_once (t : Int) (ts : List Int) (subs : List Element)
    (e : Element) (hnd : (subs.map idOf).Nodup) (he : e ∈ subs)
    (hdue : dueAt t e = true) :
    (e.once = true →
      (runPasses (t :: ts) subs).2.count (idOf e) = 1 ∧
        idOf e ∉ (notify t subs).1.map idOf) ∧
    (e.once = false →
      updateNextNotify t e ∈ (notify t subs).1 ∧ e ∈ (notify t subs).2) := by
  constructor
  · intro honce
    obtain ⟨h1, h2⟩ := notify_once_gone t subs e hnd he hdue honce
    refine ⟨?_, h2⟩
    simp only [runPasses, List.count_append]
    rw [h1, runPasses_count_zero (idOf e) ts (notify t subs).1 h2]
  · intro honce
    constructor
    · rw [notify_keep]
      refine List.mem_map.mpr ⟨e, List.mem_filter.mpr ⟨he, ?_⟩, ?_⟩
      · rw [hdue, honce]; rfl
      · rw [if_pos hdue]
    · rw [notify_fired]
      exact List.mem_filter.mpr ⟨he, hdue⟩

/-- Witness for C9: in the registry `[elemA, elemB]`, the one-shot `elemB` (due at
time 3) is dispatched exactly once over a run with a later pass at time 20 and leaves
the registry; the recurring `elemA` (due at time 7) stays, rearmed, and fires. -/
theorem once_fires_exactly_once_w :
    ((runPasses ([3, 20] : List Int) [elemA, elemB]).2.count (idOf elemB) = 1 ∧
      idOf elemB ∉ (notify 3 [elemA, elemB]).1.map idOf) ∧
    (updateNextNotify 7 elemA ∈ (notify 7 [elemA]).1 ∧ elemA ∈ (notify 7 [elemA]).2) :=
  ⟨(once_fires_exactly_once 3 [20] [elemA, elemB] elemB (by decide) (by decide)
      (by decide)).1 (by decide),
    (once_fires_exactly_once 7 [] [elemA] elemA (by decide) (by decide)
      (by decide)).2 (by decide)⟩

/-- Claim C10: under distinct identities, a due `once` record is erased from the
registry during the locked mutation phase of the notify pass, before its callback ever
runs: it is in the pending-dispatch list, yet no record of the post-pass registry (the
registry the callback sees) carries its identity; consequently a reentrant `add` of
that identity from inside the callback does not fail (for any nonzero interval), while
a reentrant `remove` fails with `SubscriptionNotFound` unless `allowMissing` is
true. -/
theorem once_erased_before_callback (now : Int) (subs : List Element) (e : Element)
    (hnd : (subs.map idOf).Nodup) (he : e ∈ subs)
    (hdue : dueAt now e = true) (honce : e.once = true) :
    e ∈ (notify now subs).2 ∧
    (∀ x ∈ (notify now subs).1,
      matchesIdentity e.subscriberHandle e.parameter x = false) ∧
    (∀ notifyInterval once' now', notifyInterval ≠ 0 →
      (addTimerSubscriber (notify now subs).1 e.subscriberHandle notifyInterval
          e.parameter once' now').1 = none) ∧
    removeTimerSubscriber (notify now subs).1 e.subscriberHandle e.parameter false =
      (some RemoveError.SubscriptionNotFound, (notify now subs).1, false) ∧
    removeTimerSubscriber (notify now subs).1 e.subscriberHandle e.parameter true =
      (none, (notify now subs).1, false) := by
  have hgone : idOf e ∉ (notify now subs).1.map idOf :=
    (notify_once_gone now subs e hnd he hdue honce).2
  have hmf : ∀ x ∈ (notify now subs).1,
      matchesIdentity e.subscriberHandle e.parameter x = false := by
    intro x hx
    rw [Bool.eq_false_iff]
    intro hmt
    have hid : idOf x = (e.subscriberHandle, e.parameter) :=
      (matchesIdentity_iff _ _ x).mp hmt
    exact hgone (List.mem_map.mpr ⟨x, hx, hid⟩)
  have herase : eraseFirstIdentity e.subscriberHandle e.parameter
      (notify now subs).1 = none :=
    eraseFirstIdentity_missing _ _ _ hmf
  refine ⟨?_, hmf, ?_, ?_, ?_⟩
  · rw [notify_fired]
    exact List.mem_filter.mpr ⟨he, hdue⟩
  · intro notifyInterval once' now' hni
    have hany : (notify now subs).1.any (fun s => sameIdentity s
        (mkElement e.subscriberHandle notifyInterval e.parameter once' now')) = false := by
      rw [List.any_eq_false]
      intro x hx
      rw [Bool.not_eq_true, Bool.eq_false_iff]
      intro ht
      have hid : idOf x = (e.subscriberHandle, e.parameter) :=
        (sameIdentity_mkElement x _ _ _ _ _).mp ht
      exact hgone (List.mem_map.mpr ⟨x, hx, hid⟩)
    simp [addTimerSubscriber, hni, hany]
  · simp [removeTimerSubscriber, herase]
  · simp [removeTimerSubscriber, herase]

/-- Witness for C10: after the pass at time 3 on `[elemA, elemB]`, the one-shot
`elemB` is pending dispatch, its identity is absent, a reentrant `add` of it succeeds
and a reentrant strict `remove` of it fails. -/
theorem once_erased_before_callback_w :
    elemB ∈ (notify 3 [elemA, elemB]).2 ∧
    (∀ x ∈ (notify 3 [elemA, elemB]).1,
      matchesIdentity elemB.subscriberHandle elemB.parameter x = false) ∧
    (∀ notifyInterval once' now', notifyInterval ≠ 0 →
      (addTimerSubscriber (notify 3 [elemA, elemB]).1 elemB.subscriberHandle
          notifyInterval elemB.parameter once' now').1 = none) ∧
    removeTimerSubscriber (notify 3 [elemA, elemB]).1 elemB.subscriberHandle
        elemB.parameter false =
      (some RemoveError.SubscriptionNotFound, (notify 3 [elemA, elemB]).1, false) ∧
    removeTimerSubscriber (notify 3 [elemA, elemB]).1 elemB.subscriberHandle
        elemB.parameter true = (none, (notify 3 [elemA, elemB]).1, false) :=
  once_erased_before_callback 3 [elemA, elemB] elemB (by decide) (by decide)
    (by decide) (by decide)

end Timer
